import Mathlib

/-!
Verification of the contract-analysis job pipeline
(`apps/api/src/jobs/analyzeContract.ts` and its variant module).

Strings manipulated by the pipeline are modelled as `List Char` so that the
JavaScript splitting / joining operations can be reasoned about directly.
Identifiers (contract ids, step names, error messages) are modelled as Lean
`String`s.
-/

set_option autoImplicit false

namespace ContractPipeline

/-! ### JavaScript string splitting, modelled on `List Char`

`text.split(/\s+/)` splits on maximal runs of whitespace.  It yields a leading
empty piece when the string starts with whitespace, a trailing empty piece when
it ends with whitespace, and `[""]` on the empty string. -/

/-- Split a character list at every character satisfying `p`, keeping empty
pieces (the behaviour of splitting on a single-character separator). -/
def splitChar (p : Char → Bool) (cs : List Char) : List (List Char) :=
  cs.foldr (fun c acc => if p c then [] :: acc else (c :: acc.headD []) :: acc.tail) [[]]

/-- The maximal non-whitespace runs of a character list: the result of the
JavaScript `text.split(/\s+/).filter(Boolean)`. -/
def wsTokens (cs : List Char) : List (List Char) :=
  (splitChar Char.isWhitespace cs).filter (· ≠ [])

/-- JavaScript `text.split(/\s+/)`: the non-whitespace runs, plus an empty
piece at either end when the text starts or ends with whitespace, and `[""]`
on the empty string. -/
def jsSplitWs : List Char → List (List Char)
  | [] => [[]]
  | c :: rest =>
      (if c.isWhitespace then [[]] else []) ++ wsTokens (c :: rest) ++
        (if ((c :: rest).getLast (by simp)).isWhitespace then [[]] else [])

/-- JavaScript `arr.join(' ')` on a list of character lists. -/
def joinSpace (ws : List (List Char)) : List Char :=
  (ws.intersperse [' ']).flatten

/-! ### Window grouping (the `for (i = 0; i < words.length; i += chunkSize)` loop) -/

/-- Fuel-indexed body of the grouping loop. -/
def groupWindowsAux {α : Type} (w : Nat) : Nat → List α → List (List α)
  | 0, _ => []
  | _, [] => []
  | fuel + 1, x :: xs => ((x :: xs).take w) :: groupWindowsAux w fuel ((x :: xs).drop w)

/-- Group a list into consecutive windows of at most `w` elements. -/
def groupWindows {α : Type} (w : Nat) (xs : List α) : List (List α) :=
  groupWindowsAux w xs.length xs

namespace AnalyzeContract

/-- `chunkText` as defined in `apps/api/src/jobs/analyzeContract.ts`:
`text.split(/\s+/)` (no filtering of empty pieces), then windows of
`chunkSize` words joined with single spaces. -/
def chunkText (text : List Char) (chunkSize : Nat := 500) : List (List Char) :=
  let words := jsSplitWs text
  (groupWindows chunkSize words).map joinSpace

end AnalyzeContract

namespace Part002

/-- `chunkText` as defined in the variant worker module: identical to the
other version except that empty pieces are removed by `.filter(Boolean)`
before grouping. -/
def chunkText (text : List Char) (chunkSize : Nat := 500) : List (List Char) :=
  let words := (jsSplitWs text).filter (· ≠ [])
  (groupWindows chunkSize words).map joinSpace

end Part002

/-! ### Basic lemmas about splitting -/

theorem splitChar_ne_nil (p : Char → Bool) (cs : List Char) : splitChar p cs ≠ [] := by
  induction cs with
  | nil => simp [splitChar]
  | cons c cs ih =>
      simp only [splitChar, List.foldr] at *
      split <;> simp_all

theorem splitChar_nil (p : Char → Bool) : splitChar p [] = [[]] := rfl

theorem splitChar_cons (p : Char → Bool) (c : Char) (cs : List Char) :
    splitChar p (c :: cs) =
      if p c then [] :: splitChar p cs
      else (c :: (splitChar p cs).headD []) :: (splitChar p cs).tail := rfl

/-- Prepending a separator-free prefix extends the head piece of a split. -/
theorem splitChar_front_clean (p : Char → Bool) (xs cs : List Char)
    (hxs : ∀ c ∈ xs, p c = false) :
    splitChar p (xs ++ cs) =
      (xs ++ (splitChar p cs).headD []) :: (splitChar p cs).tail := by
  induction xs with
  | nil =>
      cases h : splitChar p cs with
      | nil => exact absurd h (splitChar_ne_nil p cs)
      | cons a as => simp [h]
  | cons x xs ih =>
      have hx : p x = false := hxs x (by simp)
      have hxs' : ∀ c ∈ xs, p c = false := fun c hc => hxs c (by simp [hc])
      rw [List.cons_append, splitChar_cons, hx, ih hxs']
      simp

/-- Splitting at an explicit separator character concatenates the two splits. -/
theorem splitChar_append_sep (p : Char → Bool) (c : Char) (hc : p c = true)
    (xs ys : List Char) (hxs : ∀ a ∈ xs, p a = false) :
    splitChar p (xs ++ c :: ys) = xs :: splitChar p ys := by
  have hstep : splitChar p (c :: ys) = [] :: splitChar p ys := by
    rw [splitChar_cons, hc]
    simp
  rw [show xs ++ c :: ys = xs ++ (c :: ys) from rfl,
    splitChar_front_clean p xs (c :: ys) hxs, hstep]
  simp

/-- A separator-free list splits into itself alone. -/
theorem splitChar_clean (p : Char → Bool) (cs : List Char)
    (h : ∀ c ∈ cs, p c = false) : splitChar p cs = [cs] := by
  have := splitChar_front_clean p cs [] h
  simpa [splitChar_nil] using this

/-- Every piece of a split is free of separator characters. -/
theorem splitChar_pieces_clean (p : Char → Bool) (cs : List Char) :
    ∀ t ∈ splitChar p cs, ∀ a ∈ t, p a = false := by
  induction cs with
  | nil => simp [splitChar_nil]
  | cons c cs ih =>
      intro t ht a ha
      rw [splitChar_cons] at ht
      by_cases hc : p c
      · rw [if_pos hc] at ht
        rcases List.mem_cons.mp ht with h | h
        · simp [h] at ha
        · exact ih t h a ha
      · rw [if_neg hc] at ht
        cases hsp : splitChar p cs with
        | nil => exact absurd hsp (splitChar_ne_nil p cs)
        | cons u us =>
            rw [hsp] at ht
            rcases List.mem_cons.mp ht with h | h
            · subst h
              simp only [List.headD_cons, List.mem_cons] at ha
              rcases ha with rfl | ha
              · exact Bool.eq_false_iff.mpr hc
              · exact ih u (by simp [hsp]) a ha
            · exact ih t (by simp [hsp]; exact Or.inr h) a ha

theorem wsTokens_nil : wsTokens [] = [] := rfl

/-- Tokens are nonempty and whitespace-free. -/
theorem wsTokens_mem (cs : List Char) :
    ∀ t ∈ wsTokens cs, t ≠ [] ∧ ∀ a ∈ t, a.isWhitespace = false := by
  intro t ht
  have h1 : t ∈ splitChar Char.isWhitespace cs := List.mem_of_mem_filter ht
  have h2 := List.of_mem_filter ht
  refine ⟨by simpa using h2, splitChar_pieces_clean _ cs t h1⟩

/-- A nonempty whitespace-free list is its own single token. -/
theorem wsTokens_clean (cs : List Char) (hne : cs ≠ [])
    (h : ∀ c ∈ cs, c.isWhitespace = false) : wsTokens cs = [cs] := by
  unfold wsTokens
  rw [splitChar_clean _ cs h]
  simp [hne]

/-- Tokenisation across an explicit whitespace separator. -/
theorem wsTokens_append_sep (c : Char) (hc : c.isWhitespace = true)
    (xs ys : List Char) (hxs : ∀ a ∈ xs, a.isWhitespace = false) (hne : xs ≠ []) :
    wsTokens (xs ++ c :: ys) = xs :: wsTokens ys := by
  unfold wsTokens
  rw [splitChar_append_sep _ c hc xs ys hxs]
  simp [hne]

theorem joinSpace_nil : joinSpace [] = [] := rfl

theorem joinSpace_singleton (t : List Char) : joinSpace [t] = t := by
  simp [joinSpace]

theorem joinSpace_cons (t u : List Char) (rest : List (List Char)) :
    joinSpace (t :: u :: rest) = t ++ ' ' :: joinSpace (u :: rest) := by
  simp [joinSpace, List.intersperse]

/-- Tokenising the space-join of nonempty whitespace-free words recovers the
words exactly. -/
theorem wsTokens_joinSpace (g : List (List Char))
    (h : ∀ t ∈ g, t ≠ [] ∧ ∀ a ∈ t, a.isWhitespace = false) :
    wsTokens (joinSpace g) = g := by
  induction g with
  | nil => simp [joinSpace_nil, wsTokens_nil]
  | cons t rest ih =>
      cases rest with
      | nil =>
          rw [joinSpace_singleton]
          exact wsTokens_clean t (h t (by simp)).1 (h t (by simp)).2
      | cons u us =>
          rw [joinSpace_cons]
          rw [wsTokens_append_sep ' ' (by decide) t _ (h t (by simp)).2 (h t (by simp)).1]
          rw [ih (fun s hs => h s (by simp [List.mem_cons] at hs ⊢; tauto))]

/-! ### Lemmas about window grouping -/

theorem groupWindowsAux_flatten {α : Type} (w : Nat) (hw : 0 < w) :
    ∀ (fuel : Nat) (xs : List α), xs.length ≤ fuel →
      (groupWindowsAux w fuel xs).flatten = xs := by
  intro fuel
  induction fuel with
  | zero =>
      intro xs hxs
      rw [List.length_eq_zero.mp (Nat.le_zero.mp hxs)]
      rfl
  | succ fuel ih =>
      intro xs hxs
      cases xs with
      | nil => rfl
      | cons x xs =>
          have hlen : ((x :: xs).drop w).length ≤ fuel := by
            rw [List.length_drop]
            simp only [List.length_cons] at hxs ⊢
            omega
          simp only [groupWindowsAux, List.flatten_cons, ih _ hlen]
          exact List.take_append_drop w (x :: xs)

theorem groupWindowsAux_length {α : Type} (w : Nat) (hw : 0 < w) :
    ∀ (fuel : Nat) (xs : List α), xs.length ≤ fuel →
      (groupWindowsAux w fuel xs).length = (xs.length + w - 1) / w := by
  intro fuel
  induction fuel with
  | zero =>
      intro xs hxs
      rw [List.length_eq_zero.mp (Nat.le_zero.mp hxs)]
      simp only [groupWindowsAux, List.length_nil]
      exact (Nat.div_eq_of_lt (by omega)).symm
  | succ fuel ih =>
      intro xs hxs
      cases xs with
      | nil =>
          simp only [groupWindowsAux, List.length_nil]
          exact (Nat.div_eq_of_lt (by omega)).symm
      | cons x xs =>
          have hlen : ((x :: xs).drop w).length ≤ fuel := by
            rw [List.length_drop]
            simp only [List.length_cons] at hxs ⊢
            omega
          simp only [groupWindowsAux, List.length_cons, ih _ hlen, List.length_drop]
          by_cases hcase : xs.length + 1 ≤ w
          · have h0 : xs.length + 1 - w = 0 := by omega
            rw [h0]
            have ha : (0 + w - 1) / w = 0 := Nat.div_eq_of_lt (by omega)
            have hb : (xs.length + 1 + w - 1) / w = 1 :=
              Nat.div_eq_of_lt_le (by omega) (by omega)
            rw [ha, hb]
          · have hsplit : xs.length + 1 + w - 1 = (xs.length + 1 - w + w - 1) + w := by
              omega
            rw [hsplit, Nat.add_div_right _ hw]

theorem groupWindowsAux_mem {α : Type} (w : Nat) (hw : 0 < w) :
    ∀ (fuel : Nat) (xs : List α) (g : List α), g ∈ groupWindowsAux w fuel xs →
      g.length ≤ w ∧ g ≠ [] ∧ ∀ t ∈ g, t ∈ xs := by
  intro fuel
  induction fuel with
  | zero => intro xs g hg; simp [groupWindowsAux] at hg
  | succ fuel ih =>
      intro xs g hg
      cases xs with
      | nil => simp [groupWindowsAux] at hg
      | cons x xs =>
          simp only [groupWindowsAux, List.mem_cons] at hg
          rcases hg with rfl | hg
          · refine ⟨List.length_take_le _ _, ?_, fun t ht => List.mem_of_mem_take ht⟩
            obtain ⟨w', rfl⟩ := Nat.exists_eq_succ_of_ne_zero (Nat.pos_iff_ne_zero.mp hw)
            simp [List.take_succ_cons]
          · obtain ⟨h1, h2, h3⟩ := ih _ g hg
            exact ⟨h1, h2, fun t ht => List.mem_of_mem_drop (h3 t ht)⟩

theorem groupWindows_flatten {α : Type} (w : Nat) (hw : 0 < w) (xs : List α) :
    (groupWindows w xs).flatten = xs :=
  groupWindowsAux_flatten w hw xs.length xs le_rfl

theorem groupWindows_length {α : Type} (w : Nat) (hw : 0 < w) (xs : List α) :
    (groupWindows w xs).length = (xs.length + w - 1) / w :=
  groupWindowsAux_length w hw xs.length xs le_rfl

theorem groupWindows_mem {α : Type} (w : Nat) (hw : 0 < w) (xs : List α) (g : List α)
    (hg : g ∈ groupWindows w xs) : g.length ≤ w ∧ g ≠ [] ∧ ∀ t ∈ g, t ∈ xs :=
  groupWindowsAux_mem w hw xs.length xs g hg

/-- Dropping the empty pieces of a JavaScript whitespace split leaves exactly
the nonempty tokens. -/
theorem jsSplitWs_filter (cs : List Char) :
    (jsSplitWs cs).filter (· ≠ []) = wsTokens cs := by
  cases cs with
  | nil => rfl
  | cons c rest =>
      have htok : (wsTokens (c :: rest)).filter (· ≠ []) = wsTokens (c :: rest) :=
        List.filter_eq_self.mpr (fun t ht => by
          simpa using (wsTokens_mem (c :: rest) t ht).1)
      simp only [jsSplitWs, List.filter_append, htok]
      have h1 : ∀ b : Bool, (if b = true then [([] : List Char)] else []).filter (· ≠ []) = [] := by
        intro b; cases b <;> rfl
      rw [h1, h1]
      simp

/-- The variant module's `chunkText` operates on the nonempty tokens. -/
theorem part002_chunkText_eq (text : List Char) (w : Nat) :
    Part002.chunkText text w = (groupWindows w (wsTokens text)).map joinSpace := by
  unfold Part002.chunkText
  rw [jsSplitWs_filter]

/-- C4: for every text of `N` whitespace-separated tokens and window size
`W > 0`, `chunkText` (variant module) returns exactly `ceil(N / W)` segments
(written `(N + W - 1) / W` in natural division), each containing at most `W`
tokens, and concatenating the segments' token sequences in order reproduces
the original token sequence. -/
theorem chunkText_window_spec (text : List Char) (W : Nat) (hW : 0 < W) :
    (Part002.chunkText text W).length = ((wsTokens text).length + W - 1) / W ∧
    (∀ c ∈ Part002.chunkText text W, (wsTokens c).length ≤ W) ∧
    ((Part002.chunkText text W).map wsTokens).flatten = wsTokens text := by
  rw [part002_chunkText_eq]
  set toks := wsTokens text with htoks
  have hgroup : ∀ g ∈ groupWindows W toks, wsTokens (joinSpace g) = g := by
    intro g hg
    obtain ⟨-, -, hsub⟩ := groupWindows_mem W hW toks g hg
    exact wsTokens_joinSpace g (fun t ht => wsTokens_mem text t (htoks ▸ hsub t ht))
  refine ⟨?_, ?_, ?_⟩
  · rw [List.length_map, groupWindows_length W hW]
  · intro c hc
    obtain ⟨g, hg, rfl⟩ := List.mem_map.mp hc
    rw [hgroup g hg]
    exact (groupWindows_mem W hW toks g hg).1
  · rw [List.map_map]
    have : (groupWindows W toks).map (wsTokens ∘ joinSpace) = groupWindows W toks :=
      List.map_congr_left (fun g hg => hgroup g hg) |>.trans (List.map_id _)
    rw [this, groupWindows_flatten W hW]

/-- The tokens of `n` repetitions of `"word "` are `n` copies of `"word"`. -/
theorem wsTokens_word_repeat (n : Nat) :
    wsTokens (List.flatten (List.replicate n "word ".toList)) =
      List.replicate n "word".toList := by
  induction n with
  | zero => rfl
  | succ n ih =>
      rw [List.replicate_succ, List.flatten_cons]
      rw [show "word ".toList ++ List.flatten (List.replicate n "word ".toList) =
            "word".toList ++ ' ' :: List.flatten (List.replicate n "word ".toList) from rfl]
      rw [wsTokens_append_sep ' ' (by decide) _ _ (by decide) (by decide), ih]
      rfl

theorem list_sum_le_mul (l : List Nat) (b : Nat) (h : ∀ x ∈ l, x ≤ b) :
    l.sum ≤ l.length * b := by
  induction l with
  | nil => simp
  | cons x xs ih =>
      simp only [List.sum_cons, List.length_cons]
      calc x + xs.sum ≤ b + xs.length * b := by
            have h1 : x ≤ b := h x (by simp)
            have h2 : xs.sum ≤ xs.length * b := ih (fun y hy => h y (by simp [hy]))
            omega
        _ = (xs.length + 1) * b := by ring

theorem list_all_eq_of_sum_eq (l : List Nat) (b : Nat) (h : ∀ x ∈ l, x ≤ b)
    (hsum : l.sum = l.length * b) : ∀ x ∈ l, x = b := by
  induction l with
  | nil => simp
  | cons x xs ih =>
      simp only [List.sum_cons, List.length_cons] at hsum
      have hx : x ≤ b := h x (by simp)
      have hxs : ∀ y ∈ xs, y ≤ b := fun y hy => h y (by simp [hy])
      have hle : xs.sum ≤ xs.length * b := list_sum_le_mul xs b hxs
      have hmul : (xs.length + 1) * b = xs.length * b + b := by ring
      rw [hmul] at hsum
      have hxb : x = b := by omega
      have hsx : xs.sum = xs.length * b := by omega
      intro y hy
      rcases List.mem_cons.mp hy with rfl | hy
      · exact hxb
      · exact ih hxs hsx y hy

/-- C4 witness: `chunkText_window_spec` instantiated at the spec's own
example, 1000 repetitions of `"word "` with window 100: ten segments, each of
exactly 100 tokens. -/
theorem chunkText_window_spec_witness :
    0 < 100 ∧
      (Part002.chunkText (List.flatten (List.replicate 1000 "word ".toList)) 100).length =
        10 ∧
      ∀ c ∈ Part002.chunkText (List.flatten (List.replicate 1000 "word ".toList)) 100,
        (wsTokens c).length = 100 := by
  have hspec := chunkText_window_spec
    (List.flatten (List.replicate 1000 "word ".toList)) 100 (by decide)
  obtain ⟨hlen, hbound, hflat⟩ := hspec
  have harith : ((1000 : Nat) + 100 - 1) / 100 = 10 := by norm_num
  rw [wsTokens_word_repeat] at hlen hflat
  rw [List.length_replicate, harith] at hlen
  refine ⟨by decide, hlen, ?_⟩
  have hsum : ((Part002.chunkText (List.flatten (List.replicate 1000 "word ".toList))
      100).map (fun c => (wsTokens c).length)).sum = 1000 := by
    have := congrArg List.length hflat
    rw [List.length_flatten, List.length_replicate, List.map_map] at this
    simpa only [Function.comp_def] using this
  have hall := list_all_eq_of_sum_eq
    ((Part002.chunkText (List.flatten (List.replicate 1000 "word ".toList)) 100).map
      (fun c => (wsTokens c).length)) 100
    (by
      intro x hx
      obtain ⟨c, hc, rfl⟩ := List.mem_map.mp hx
      exact hbound c hc)
    (by rw [hsum, List.length_map, hlen])
  intro c hc
  exact hall _ (List.mem_map.mpr ⟨c, hc, rfl⟩)

/-- C5: `chunkText` from `apps/api/src/jobs/analyzeContract.ts` maps the empty
string to the one-element list containing the empty string, for every positive
window size. -/
theorem chunkText_empty_input (W : Nat) (hW : 0 < W) :
    AnalyzeContract.chunkText [] W = [[]] := by
  cases W with
  | zero => exact absurd hW (by omega)
  | succ w =>
      show (groupWindows (w + 1) (jsSplitWs [])).map joinSpace = [[]]
      rw [show jsSplitWs [] = [[]] from rfl]
      simp [groupWindows, groupWindowsAux, joinSpace]

/-- C5 witness: the empty text at the default window size 500. -/
theorem chunkText_empty_input_witness :
    0 < 500 ∧ AnalyzeContract.chunkText [] 500 = [[]] :=
  ⟨by decide, chunkText_empty_input 500 (by decide)⟩

/-! ### The retrying reasoner (`runAgentLoop`)

The loop is parameterised by the per-attempt outcome of the underlying
analysis call (`call attempt`): the code's `await performAgentAnalysis(...)`
either resolves (`Except.ok`) or rejects with an error message
(`Except.error`).  The model records the attempts made and the backoff sleeps
performed (`baseDelay * 2 ^ attempt` after each failed attempt that is not the
last one). -/

/-- Result of one run of the retry loop. -/
structure LoopResult (α : Type) where
  outcome : Except String α
  attemptsMade : Nat
  sleeps : List Nat

/-- The error message thrown on exhaustion.  JavaScript renders the template
`${lastError?.message}` as "undefined" when no error was recorded. -/
def agentLoopFailMsg (maxRetries : Nat) (lastError : Option String) : String :=
  "Agent loop failed after " ++ toString maxRetries ++ " attempts: " ++
    lastError.getD "undefined"

/-- Fuel-indexed body of `runAgentLoop`'s `for` loop; `fuel` is the number of
attempts remaining (`maxRetries - attempt`). -/
def runAgentLoopAux {α : Type} (call : Nat → Except String α)
    (maxRetries baseDelay : Nat) : Nat → Nat → Option String → LoopResult α
  | 0, _, lastError => ⟨.error (agentLoopFailMsg maxRetries lastError), 0, []⟩
  | fuel + 1, attempt, _ =>
      match call attempt with
      | .ok a => ⟨.ok a, 1, []⟩
      | .error e =>
          let rest := runAgentLoopAux call maxRetries baseDelay fuel (attempt + 1) (some e)
          ⟨rest.outcome, rest.attemptsMade + 1,
            (if attempt < maxRetries - 1 then [baseDelay * 2 ^ attempt] else []) ++
              rest.sleeps⟩

/-- `runAgentLoop` from the worker module, generic over the underlying
analysis client; the defaults in the source are `maxRetries = 3`,
`baseDelay = 1000`. -/
def runAgentLoop {α : Type} (call : Nat → Except String α)
    (maxRetries : Nat := 3) (baseDelay : Nat := 1000) : LoopResult α :=
  runAgentLoopAux call maxRetries baseDelay maxRetries 0 none

theorem runAgentLoopAux_attempts_le {α : Type} (call : Nat → Except String α)
    (mr bd : Nat) :
    ∀ (fuel attempt : Nat) (le : Option String),
      (runAgentLoopAux call mr bd fuel attempt le).attemptsMade ≤ fuel := by
  intro fuel
  induction fuel with
  | zero => intro attempt le; simp [runAgentLoopAux]
  | succ fuel ih =>
      intro attempt le
      simp only [runAgentLoopAux]
      cases call attempt with
      | ok a => simp
      | error e => simpa using ih (attempt + 1) (some e)

theorem runAgentLoopAux_attempts_pos {α : Type} (call : Nat → Except String α)
    (mr bd : Nat) (fuel attempt : Nat) (le : Option String) (hfuel : 0 < fuel) :
    1 ≤ (runAgentLoopAux call mr bd fuel attempt le).attemptsMade := by
  cases fuel with
  | zero => omega
  | succ fuel =>
      simp only [runAgentLoopAux]
      cases call attempt with
      | ok a => simp
      | error e => simp

theorem runAgentLoopAux_sleeps {α : Type} (call : Nat → Except String α)
    (mr bd : Nat) :
    ∀ (fuel attempt : Nat) (le : Option String), fuel + attempt = mr →
      (runAgentLoopAux call mr bd fuel attempt le).sleeps =
        (List.range' attempt
          ((runAgentLoopAux call mr bd fuel attempt le).attemptsMade - 1)).map
          (fun i => bd * 2 ^ i) := by
  intro fuel
  induction fuel with
  | zero => intro attempt le _; simp [runAgentLoopAux]
  | succ fuel ih =>
      intro attempt le hmr
      simp only [runAgentLoopAux]
      cases call attempt with
      | ok a => simp
      | error e =>
          simp only
          cases Nat.eq_zero_or_pos fuel with
          | inl h0 =>
              subst h0
              have hnot : ¬ attempt < mr - 1 := by omega
              simp [runAgentLoopAux, if_neg hnot]
          | inr hpos =>
              have hyes : attempt < mr - 1 := by omega
              rw [if_pos hyes]
              have hrec := ih (attempt + 1) (some e) (by omega)
              have hone := runAgentLoopAux_attempts_pos call mr bd fuel (attempt + 1)
                (some e) hpos
              rw [hrec]
              have hn : (runAgentLoopAux call mr bd fuel (attempt + 1)
                  (some e)).attemptsMade + 1 - 1 =
                ((runAgentLoopAux call mr bd fuel (attempt + 1)
                  (some e)).attemptsMade - 1) + 1 := by omega
              rw [hn, List.range'_succ]
              simp

/-- C3: the retrying reasoner attempts the underlying analysis at most
`maxRetries` times, sleeping `baseDelay * 2 ^ attempt` after each failed
attempt except the last; a client that always fails with `maxRetries = 3`
is attempted exactly 3 times and the loop throws an error naming "3 attempts"
and the last underlying error; a client failing twice then succeeding returns
the success after exactly 3 attempts. -/
theorem runAgentLoop_retry_spec {α : Type} (call : Nat → Except String α)
    (mr bd : Nat) (e : Nat → String) (e0 e1 : String) (a : α) :
    (runAgentLoop call mr bd).attemptsMade ≤ mr ∧
    (runAgentLoop call mr bd).sleeps =
      (List.range ((runAgentLoop call mr bd).attemptsMade - 1)).map
        (fun i => bd * 2 ^ i) ∧
    runAgentLoop (fun i => (.error (e i) : Except String α)) 3 bd =
      ⟨.error ("Agent loop failed after 3 attempts: " ++ e 2), 3,
        [bd * 1, bd * 2]⟩ ∧
    runAgentLoop
        (fun i => if i = 0 then .error e0 else if i = 1 then .error e1 else .ok a)
        3 bd =
      ⟨.ok a, 3, [bd * 1, bd * 2]⟩ := by
  refine ⟨runAgentLoopAux_attempts_le call mr bd mr 0 none, ?_, ?_, ?_⟩
  · have h := runAgentLoopAux_sleeps call mr bd mr 0 none (by omega)
    rw [List.range'_eq_map_range] at h
    simpa [runAgentLoop, List.map_map] using h
  · show runAgentLoopAux _ 3 bd 3 0 none = _
    simp only [runAgentLoopAux, agentLoopFailMsg]
    norm_num
    rfl
  · show runAgentLoopAux _ 3 bd 3 0 none = _
    simp [runAgentLoopAux]

/-! ### The legal-agent analysis stage (`performAgentAnalysis`)

External collaborators (the dynamically imported service, its `healthCheck`,
`comprehensiveAnalysis` and `addClauses` calls, and the wall clock) are
modelled by the outcomes of their awaited calls. -/

structure Clause where
  text : String
  type : String

structure ExtractionData where
  clauses : List Clause
  num_clauses : Nat

structure Extraction where
  success : Bool
  data : ExtractionData

structure RiskScore where
  risk_level : String

structure ComprehensiveAnalysis where
  extraction : Extraction
  riskScores : List RiskScore
  analysisData : String

structure ClauseToStore where
  clause_text : String
  document_id : String
  clause_type : String
  chunk_index : Nat
  embedding_dimension : Nat

/-- Outcomes of the external calls awaited inside `performAgentAnalysis`. -/
structure LegalAgentEnv where
  importService : Except String Unit
  healthCheck : Except String Bool
  comprehensiveAnalysis : Except String ComprehensiveAnalysis
  addClauses : List ClauseToStore → Except String Unit
  now : Nat

structure AgentStats where
  total_clauses : Nat
  high_risk_clauses : Nat
  medium_risk_clauses : Nat
  low_risk_clauses : Nat

/-- The analysis value returned by `performAgentAnalysis` (one of the three
object literals in the source). -/
structure AgentResult where
  summary : String
  clauses : List Clause
  risks : List RiskScore
  analysisData : Option String
  completedAt : Nat
  mode : String
  errorMsg : Option String
  stats : Option AgentStats

/-- The result returned when the legal-agent service reports unhealthy. -/
def fallbackModeResult (now : Nat) : AgentResult :=
  { summary := "Contract analysis completed (fallback mode)", clauses := [],
    risks := [], analysisData := none, completedAt := now, mode := "fallback",
    errorMsg := none, stats := none }

/-- The result produced by the `catch` handler. -/
def errorFallbackResult (now : Nat) (e : String) : AgentResult :=
  { summary := "Contract analysis completed (error fallback)", clauses := [],
    risks := [], analysisData := none, completedAt := now, mode := "fallback",
    errorMsg := some e, stats := none }

/-- The "legal_agent" success result built at the end of the `try` block. -/
def reActAgentResult (analysis : ComprehensiveAnalysis) (now : Nat) : AgentResult :=
  { summary := "Contract analysis completed using ReAct agent",
    clauses := analysis.extraction.data.clauses,
    risks := analysis.riskScores,
    analysisData := some analysis.analysisData,
    completedAt := now,
    mode := "legal_agent",
    errorMsg := none,
    stats := some
      { total_clauses := analysis.extraction.data.num_clauses,
        high_risk_clauses :=
          (analysis.riskScores.filter (fun r => r.risk_level == "HIGH")).length,
        medium_risk_clauses :=
          (analysis.riskScores.filter (fun r => r.risk_level == "MEDIUM")).length,
        low_risk_clauses :=
          (analysis.riskScores.filter (fun r => r.risk_level == "LOW")).length } }

/-- The `try` block of `performAgentAnalysis`: every awaited call may reject,
which surfaces here as `Except.error`. -/
def performAgentAnalysisTry (embeddings : List (List ℚ)) (env : LegalAgentEnv) :
    Except String AgentResult := do
  let _ ← env.importService
  let isHealthy ← env.healthCheck
  if isHealthy = false then
    return fallbackModeResult env.now
  let analysis ← env.comprehensiveAnalysis
  if analysis.extraction.success = true ∧ 0 < analysis.extraction.data.clauses.length then
    let clausesToStore := analysis.extraction.data.clauses.enum.map (fun p =>
      { clause_text := p.2.text
        document_id := "contract_" ++ toString env.now
        clause_type := p.2.type
        chunk_index := p.1
        embedding_dimension :=
          match embeddings.head? with
          | some v => if v.length = 0 then 1536 else v.length
          | none => 1536 })
    let _ ← env.addClauses clausesToStore
    pure ()
  return reActAgentResult analysis env.now

/-- `performAgentAnalysis`: the whole body is one `try`/`catch` whose handler
converts any error into a fallback result, so the function always resolves.
The `text` and `chunks` arguments only feed the external calls, which are
modelled through `env`. -/
def performAgentAnalysis (embeddings : List (List ℚ)) (env : LegalAgentEnv) :
    AgentResult :=
  match performAgentAnalysisTry embeddings env with
  | .ok r => r
  | .error e => errorFallbackResult env.now e

/-- C10: `performAgentAnalysis` never throws: every error of the `try` block
is converted into a result with mode "fallback" carrying the error message,
and `runAgentLoop` wrapping it returns the analysis on its first attempt with
no backoff sleeps, so the reasoning stage cannot fail a job attempt. -/
theorem performAgentAnalysis_never_throws (embeddings : List (List ℚ))
    (env : LegalAgentEnv) (e : String)
    (herr : performAgentAnalysisTry embeddings env = .error e) :
    runAgentLoop (fun _ => .ok (performAgentAnalysis embeddings env)) 3 1000 =
      ⟨.ok (performAgentAnalysis embeddings env), 1, []⟩ ∧
    (performAgentAnalysis embeddings env).mode = "fallback" ∧
    (performAgentAnalysis embeddings env).errorMsg = some e := by
  refine ⟨rfl, ?_, ?_⟩ <;>
    simp [performAgentAnalysis, herr, errorFallbackResult]

/-- C10 witness: a concrete environment whose health check rejects. -/
theorem performAgentAnalysis_never_throws_witness :
    performAgentAnalysisTry []
        { importService := .ok (), healthCheck := .error "ECONNREFUSED",
          comprehensiveAnalysis := .error "unreachable",
          addClauses := fun _ => .ok (), now := 0 } =
      .error "ECONNREFUSED" ∧
    (runAgentLoop
        (fun _ => .ok (performAgentAnalysis []
          { importService := .ok (), healthCheck := .error "ECONNREFUSED",
            comprehensiveAnalysis := .error "unreachable",
            addClauses := fun _ => .ok (), now := 0 })) 3 1000 =
      ⟨.ok (performAgentAnalysis []
          { importService := .ok (), healthCheck := .error "ECONNREFUSED",
            comprehensiveAnalysis := .error "unreachable",
            addClauses := fun _ => .ok (), now := 0 }), 1, []⟩ ∧
    (performAgentAnalysis []
        { importService := .ok (), healthCheck := .error "ECONNREFUSED",
          comprehensiveAnalysis := .error "unreachable",
          addClauses := fun _ => .ok (), now := 0 }).mode = "fallback" ∧
    (performAgentAnalysis []
        { importService := .ok (), healthCheck := .error "ECONNREFUSED",
          comprehensiveAnalysis := .error "unreachable",
          addClauses := fun _ => .ok (), now := 0 }).errorMsg =
      some "ECONNREFUSED") :=
  ⟨by rfl, performAgentAnalysis_never_throws _ _ _ (by rfl)⟩

/-! ### Checkpoint store -/

/-- Per-step checkpoint payloads, as passed to `storeCheckpoint` at each
call site of the worker. -/
inductive CheckpointData where
  | hashChecked (fileHash : String)
  | ocrCompleted (textLength : Nat)
  | embeddingsGenerated (chunkCount : Nat) (embeddingDim : Nat)
  | agentAnalysisCompleted (analysisKeys : List String)
  | completed (success : Bool)
deriving DecidableEq

/-- One `analysisCheckpoint` row; `createdAt` is the stored wall-clock time. -/
structure Checkpoint where
  contractId : String
  step : String
  data : CheckpointData
  createdAt : Nat
deriving DecidableEq

def insertByCreatedAt (c : Checkpoint) : List Checkpoint → List Checkpoint
  | [] => [c]
  | d :: ds =>
      if c.createdAt < d.createdAt then c :: d :: ds else d :: insertByCreatedAt c ds

/-- Ascending sort by `createdAt` (the store's `orderBy: {createdAt: 'asc'}`). -/
def sortByCreatedAt : List Checkpoint → List Checkpoint
  | [] => []
  | c :: cs => insertByCreatedAt c (sortByCreatedAt cs)

/-- `getCheckpointsForContract`: all rows of one contract, in `createdAt`
order. -/
def getCheckpointsForContract (rows : List Checkpoint) (contractId : String) :
    List Checkpoint :=
  sortByCreatedAt (rows.filter (fun c => c.contractId == contractId))

/-! ### Idempotency guard -/

/-- `checkIdempotency`: asks Redis whether the `processed:` key of the
fingerprint exists.  A rejected lookup propagates (there is no catch). -/
def checkIdempotency (redisExists : String → Except String Nat)
    (fileHash : String) : Except String Bool :=
  (redisExists ("processed:" ++ fileHash)).map (fun n => n == 1)

/-- The stubbed Redis connection installed when Redis is not configured:
`exists` always resolves to 0. -/
def mockRedisExists : String → Except String Nat := fun _ => .ok 0

/-! ### Text extraction (`ocrPdf`) -/

/-- The extractor's collaborators: the lowercased file extension, the outcome
of the structured PDF parse (whose `text` field may be absent), and the
Tesseract fallback's text and logged fractional progress values. -/
structure OcrEnv where
  extLower : String
  pdfParse : Except String (Option (List Char))
  tesseractText : List Char
  tesseractProgress : List ℚ

/-- The Tesseract fallback: reports `m.progress * 100` for every logged
recognition event, then resolves with the recognised text. -/
def ocrTesseract (env : OcrEnv) : List Char × List ℚ :=
  (env.tesseractText, env.tesseractProgress.map (fun p => p * 100))

/-- `ocrPdf`, restricted to its resolving paths: the structured PDF path
reports 100 once and returns its text when it is nonblank
(`text.trim().length > 0`); otherwise the Tesseract fallback runs.  Returns
the extracted text together with the progress values passed to `onProgress`. -/
def ocrPdf (env : OcrEnv) : List Char × List ℚ :=
  if env.extLower == ".pdf" then
    match env.pdfParse with
    | .ok parsedText =>
        let text := parsedText.getD []
        if text.any (fun c => !c.isWhitespace) then (text, [100])
        else ocrTesseract env
    | .error _ => ocrTesseract env
  else ocrTesseract env

/-- `generateEmbeddings`: one 1536-dimensional vector per chunk; the values
come from `Math.random()`, modelled by the ambient random source `rand`. -/
def generateEmbeddings (rand : Nat → Nat → ℚ) (chunks : List (List Char)) :
    List (List ℚ) :=
  (List.range chunks.length).map (fun i => (List.range 1536).map (fun j => rand i j))

/-! ### The worker -/

/-- The job payload (`ContractJobData`). -/
structure ContractJobData where
  filePath : String
  contractId : String
  userId : String
  metadata : Option (List (String × String))
deriving DecidableEq

/-- One job's view of the outside world: its payload, the computed file
fingerprint, the Redis `exists` lookup, the extractor inputs, the random
source, the legal-agent collaborators, the checkpoint rows already stored,
and the clock at the start of the run (each checkpoint write happens at a
strictly later instant). -/
structure WorkerEnv where
  jobData : ContractJobData
  fileHash : String
  redisExists : String → Except String Nat
  ocr : OcrEnv
  rand : Nat → Nat → ℚ
  agent : LegalAgentEnv
  priorCheckpoints : List Checkpoint
  startTime : Nat

/-- The `agentAnalysis` field of a result: `{skipped: true}` on the fast
path, the agent's result otherwise. -/
inductive AgentAnalysis where
  | skipped
  | result (r : AgentResult)

/-- `AnalysisResult` as returned by the worker. -/
structure AnalysisResult where
  contractId : String
  fileHash : String
  ocrText : List Char
  chunks : List (List Char)
  embeddings : List (List ℚ)
  agentAnalysis : AgentAnalysis
  checkpoints : List Checkpoint

/-- The observable behaviour of one job attempt: the returned value (or the
thrown error), every progress value reported through `updateProgress` in
order, every checkpoint row appended, whether the processed marker was
written, and how much heavy-stage work ran. -/
structure RunOutcome where
  outcome : Except String AnalysisResult
  progressTrace : List ℚ
  newCheckpoints : List Checkpoint
  markedProcessed : Bool
  ocrRan : Bool
  embedRan : Bool
  agentAttempts : Nat

/-- `Object.keys` of the three analysis object literals. -/
def agentResultKeys (r : AgentResult) : List String :=
  if r.mode == "legal_agent" then
    ["summary", "clauses", "risks", "analysis", "parties", "dates", "keyTerms",
      "completedAt", "mode", "stats"]
  else if r.errorMsg.isNone then
    ["summary", "clauses", "risks", "parties", "dates", "keyTerms", "completedAt",
      "mode"]
  else
    ["summary", "clauses", "risks", "parties", "dates", "keyTerms", "completedAt",
      "mode", "error"]

/-- The skip fast path of the worker: progress jumps to 100 and the stored
checkpoints are read back, with no heavy-stage work and no new rows. -/
def processJobSkip (env : WorkerEnv) : RunOutcome :=
  { outcome := .ok
      { contractId := env.jobData.contractId, fileHash := env.fileHash,
        ocrText := [], chunks := [], embeddings := [], agentAnalysis := .skipped,
        checkpoints := getCheckpointsForContract env.priorCheckpoints
          env.jobData.contractId },
    progressTrace := [5, 100], newCheckpoints := [], markedProcessed := false,
    ocrRan := false, embedRan := false, agentAttempts := 0 }

/-- The full pipeline of the worker: OCR, chunking, embeddings, the retrying
agent loop, result assembly, the processed marker, and the final checkpoint,
with the progress updates of the source interleaved. -/
def processJobFull (env : WorkerEnv) : RunOutcome :=
  let contractId := env.jobData.contractId
  let cp1 : Checkpoint :=
    ⟨contractId, "hash_checked", .hashChecked env.fileHash, env.startTime⟩
  let extracted := ocrPdf env.ocr
  let ocrText := extracted.1
  let reports := extracted.2
  let cp2 : Checkpoint :=
    ⟨contractId, "ocr_completed", .ocrCompleted ocrText.length, env.startTime + 1⟩
  let chunks := AnalyzeContract.chunkText ocrText
  let embeddings := generateEmbeddings env.rand chunks
  let cp3 : Checkpoint :=
    ⟨contractId, "embeddings_generated",
      .embeddingsGenerated chunks.length ((embeddings.head?.map List.length).getD 0),
      env.startTime + 2⟩
  let loop := runAgentLoop (fun _ => .ok (performAgentAnalysis embeddings env.agent)) 3 1000
  match loop.outcome with
  | .error e =>
      { outcome := .error e,
        progressTrace :=
          5 :: 10 :: (reports.map (fun p => 10 + p * (3 / 10))) ++ [40, 50, 60],
        newCheckpoints := [cp1, cp2, cp3], markedProcessed := false,
        ocrRan := true, embedRan := true, agentAttempts := loop.attemptsMade }
  | .ok agentAnalysis =>
      let cp4 : Checkpoint :=
        ⟨contractId, "agent_analysis_completed",
          .agentAnalysisCompleted (agentResultKeys agentAnalysis), env.startTime + 3⟩
      let checkpoints := getCheckpointsForContract
        (env.priorCheckpoints ++ [cp1, cp2, cp3, cp4]) contractId
      let result : AnalysisResult :=
        ⟨contractId, env.fileHash, ocrText, chunks, embeddings,
          .result agentAnalysis, checkpoints⟩
      let cp5 : Checkpoint :=
        ⟨contractId, "completed", .completed true, env.startTime + 4⟩
      { outcome := .ok result,
        progressTrace :=
          5 :: 10 :: (reports.map (fun p => 10 + p * (3 / 10))) ++
            [40, 50, 60, 90, 100],
        newCheckpoints := [cp1, cp2, cp3, cp4, cp5], markedProcessed := true,
        ocrRan := true, embedRan := true, agentAttempts := loop.attemptsMade }

/-- The worker's job processor (`analyzeContract.ts`, worker body): progress
5, hash, idempotency lookup (whose failure propagates and fails the
attempt), then either the skip fast path or the full pipeline. -/
def processJob (env : WorkerEnv) : RunOutcome :=
  match checkIdempotency env.redisExists env.fileHash with
  | .error e =>
      { outcome := .error e, progressTrace := [5], newCheckpoints := [],
        markedProcessed := false, ocrRan := false, embedRan := false,
        agentAttempts := 0 }
  | .ok true => processJobSkip env
  | .ok false => processJobFull env

/-- Discriminator for a resolved (non-thrown) job attempt. -/
def isOkE {ε α : Type} : Except ε α → Bool
  | .ok _ => true
  | .error _ => false

/-! ### Worker lemmas -/

/-- A client that always resolves is attempted exactly once. -/
theorem runAgentLoop_const_ok {α : Type} (r : α) (bd : Nat) :
    runAgentLoop (fun _ => .ok r) 3 bd = ⟨.ok r, 1, []⟩ := rfl

theorem processJob_skip_of_live (env : WorkerEnv)
    (hlive : env.redisExists ("processed:" ++ env.fileHash) = .ok 1) :
    processJob env = processJobSkip env := by
  unfold processJob checkIdempotency
  rw [hlive]
  rfl

theorem processJob_full_of_miss (env : WorkerEnv) (n : Nat)
    (hn : env.redisExists ("processed:" ++ env.fileHash) = .ok n) (hne : n ≠ 1) :
    processJob env = processJobFull env := by
  unfold processJob checkIdempotency
  rw [hn]
  have hbeq : (n == 1) = false := beq_eq_false_iff_ne.mpr hne
  simp only [Except.map, hbeq]

theorem processJob_error_of_guard_error (env : WorkerEnv) (e : String)
    (herr : env.redisExists ("processed:" ++ env.fileHash) = .error e) :
    processJob env =
      { outcome := .error e, progressTrace := [5], newCheckpoints := [],
        markedProcessed := false, ocrRan := false, embedRan := false,
        agentAttempts := 0 } := by
  unfold processJob checkIdempotency
  rw [herr]
  rfl

/-- Sorting an already strictly increasing checkpoint list is the identity. -/
theorem sortByCreatedAt_of_chain :
    ∀ l : List Checkpoint,
      List.Chain' (fun a b => a.createdAt < b.createdAt) l → sortByCreatedAt l = l := by
  intro l
  induction l with
  | nil => intro _; rfl
  | cons c cs ih =>
      intro hch
      have hcs := (List.chain'_cons'.mp hch).2
      simp only [sortByCreatedAt]
      rw [ih hcs]
      cases cs with
      | nil => rfl
      | cons d ds =>
          have hcd : c.createdAt < d.createdAt := (List.chain'_cons'.mp hch).1 d rfl
          simp [insertByCreatedAt, hcd]

/-! ### Concrete sample environments for the worker theorems -/

/-- A legal-agent environment whose service reports unhealthy (the in-process
fallback path). -/
def sampleAgentEnv : LegalAgentEnv :=
  { importService := .ok (), healthCheck := .ok false,
    comprehensiveAnalysis := .error "service offline",
    addClauses := fun _ => .ok (), now := 50 }

/-- A structured PDF with a short embedded text layer. -/
def sampleOcrEnv : OcrEnv :=
  { extLower := ".pdf", pdfParse := .ok (some "Payment due in 30 days".toList),
    tesseractText := [], tesseractProgress := [] }

def sampleJobData : ContractJobData :=
  { filePath := "/uploads/contract.pdf", contractId := "contract-1",
    userId := "user-1", metadata := none }

/-- A fresh-contract environment whose guard lookup misses. -/
def sampleEnv : WorkerEnv :=
  { jobData := sampleJobData, fileHash := "abc123",
    redisExists := fun _ => .ok 0, ocr := sampleOcrEnv, rand := fun _ _ => 0,
    agent := sampleAgentEnv, priorCheckpoints := [], startTime := 100 }

/-- `sampleEnv` with a live processed marker. -/
def liveMarkerEnv : WorkerEnv :=
  { sampleEnv with redisExists := fun _ => .ok 1 }

/-- C1: a job whose fingerprint has a live processed marker completes
immediately at progress 100 with the "skipped" result (empty text, chunks and
embeddings, analysis marked skipped), records no checkpoint row, writes no
marker, and performs no extraction, chunking, embedding, or reasoning work. -/
theorem worker_skip_fast_path (env : WorkerEnv)
    (hlive : env.redisExists ("processed:" ++ env.fileHash) = .ok 1) :
    (processJob env).progressTrace = [5, 100] ∧
    (processJob env).outcome = .ok
      { contractId := env.jobData.contractId, fileHash := env.fileHash,
        ocrText := [], chunks := [], embeddings := [], agentAnalysis := .skipped,
        checkpoints := getCheckpointsForContract env.priorCheckpoints
          env.jobData.contractId } ∧
    (processJob env).newCheckpoints = [] ∧
    (processJob env).ocrRan = false ∧
    (processJob env).embedRan = false ∧
    (processJob env).agentAttempts = 0 ∧
    (processJob env).markedProcessed = false := by
  rw [processJob_skip_of_live env hlive]
  exact ⟨rfl, rfl, rfl, rfl, rfl, rfl, rfl⟩

/-- C1 witness: the live-marker environment. -/
theorem worker_skip_fast_path_witness :
    liveMarkerEnv.redisExists ("processed:" ++ liveMarkerEnv.fileHash) = .ok 1 ∧
    ((processJob liveMarkerEnv).progressTrace = [5, 100] ∧
      (processJob liveMarkerEnv).outcome = .ok
        { contractId := liveMarkerEnv.jobData.contractId,
          fileHash := liveMarkerEnv.fileHash, ocrText := [], chunks := [],
          embeddings := [], agentAnalysis := .skipped,
          checkpoints := getCheckpointsForContract liveMarkerEnv.priorCheckpoints
            liveMarkerEnv.jobData.contractId } ∧
      (processJob liveMarkerEnv).newCheckpoints = [] ∧
      (processJob liveMarkerEnv).ocrRan = false ∧
      (processJob liveMarkerEnv).embedRan = false ∧
      (processJob liveMarkerEnv).agentAttempts = 0 ∧
      (processJob liveMarkerEnv).markedProcessed = false) :=
  ⟨rfl, worker_skip_fast_path liveMarkerEnv rfl⟩

/-- The five checkpoint rows of a successful full run. -/
def fullRunSteps : List String :=
  ["hash_checked", "ocr_completed", "embeddings_generated",
    "agent_analysis_completed", "completed"]

/-- C2: on a successful non-skipped run over a contract with no prior rows,
the checkpoint rows recorded for the contractId, read back in createdAt
order, are exactly hash_checked, ocr_completed, embeddings_generated,
agent_analysis_completed, completed — nothing skipped, reordered or
rewritten. -/
theorem worker_checkpoint_sequence (env : WorkerEnv) (n : Nat)
    (hn : env.redisExists ("processed:" ++ env.fileHash) = .ok n) (hne : n ≠ 1)
    (hfresh : env.priorCheckpoints.filter
        (fun c => c.contractId == env.jobData.contractId) = []) :
    isOkE (processJob env).outcome = true ∧
    (processJob env).newCheckpoints.map (fun c => c.step) = fullRunSteps ∧
    (getCheckpointsForContract
        (env.priorCheckpoints ++ (processJob env).newCheckpoints)
        env.jobData.contractId).map (fun c => c.step) = fullRunSteps := by
  rw [processJob_full_of_miss env n hn hne]
  refine ⟨rfl, rfl, ?_⟩
  rw [show (processJobFull env).newCheckpoints =
      [⟨env.jobData.contractId, "hash_checked", .hashChecked env.fileHash,
          env.startTime⟩,
        ⟨env.jobData.contractId, "ocr_completed",
          .ocrCompleted (ocrPdf env.ocr).1.length, env.startTime + 1⟩,
        ⟨env.jobData.contractId, "embeddings_generated",
          .embeddingsGenerated (AnalyzeContract.chunkText (ocrPdf env.ocr).1).length
            (((generateEmbeddings env.rand
                (AnalyzeContract.chunkText (ocrPdf env.ocr).1)).head?.map
                List.length).getD 0),
          env.startTime + 2⟩,
        ⟨env.jobData.contractId, "agent_analysis_completed",
          .agentAnalysisCompleted (agentResultKeys (performAgentAnalysis
            (generateEmbeddings env.rand (AnalyzeContract.chunkText (ocrPdf env.ocr).1))
            env.agent)), env.startTime + 3⟩,
        ⟨env.jobData.contractId, "completed", .completed true, env.startTime + 4⟩]
    from rfl]
  unfold getCheckpointsForContract
  rw [List.filter_append, hfresh]
  rw [List.nil_append]
  have hself : (env.jobData.contractId == env.jobData.contractId) = true :=
    beq_self_eq_true _
  simp only [List.filter, hself]
  rw [sortByCreatedAt_of_chain _ (by
    simp only [List.chain'_cons, List.chain'_singleton, and_true]
    refine ⟨?_, ?_, ?_, ?_⟩ <;> omega)]
  rfl

/-- C2 witness: the fresh sample environment (guard lookup resolves 0). -/
theorem worker_checkpoint_sequence_witness :
    sampleEnv.redisExists ("processed:" ++ sampleEnv.fileHash) = .ok 0 ∧
    (0 : Nat) ≠ 1 ∧
    sampleEnv.priorCheckpoints.filter
        (fun c => c.contractId == sampleEnv.jobData.contractId) = [] ∧
    (isOkE (processJob sampleEnv).outcome = true ∧
      (processJob sampleEnv).newCheckpoints.map (fun c => c.step) = fullRunSteps ∧
      (getCheckpointsForContract
          (sampleEnv.priorCheckpoints ++ (processJob sampleEnv).newCheckpoints)
          sampleEnv.jobData.contractId).map (fun c => c.step) = fullRunSteps) :=
  ⟨rfl, by decide, rfl, worker_checkpoint_sequence sampleEnv 0 rfl (by decide) rfl⟩

/-! ### Progress monotonicity -/

/-- The progress values emitted by `ocrPdf` are ordered and lie in [0, 100]
whenever the recognition engine's fractional progress is ordered in [0, 1]. -/
theorem ocrPdf_reports_monotone (env : OcrEnv)
    (hchain : List.Chain' (· ≤ ·) env.tesseractProgress)
    (hbound : ∀ p ∈ env.tesseractProgress, 0 ≤ p ∧ p ≤ 1) :
    List.Chain' (· ≤ ·) (ocrPdf env).2 ∧ ∀ p ∈ (ocrPdf env).2, 0 ≤ p ∧ p ≤ 100 := by
  have htess : List.Chain' (· ≤ ·) (ocrTesseract env).2 ∧
      ∀ p ∈ (ocrTesseract env).2, 0 ≤ p ∧ p ≤ 100 := by
    unfold ocrTesseract
    constructor
    · exact (List.chain'_map _).mpr (hchain.imp (fun a b hab => by nlinarith))
    · intro p hp
      obtain ⟨q, hq, rfl⟩ := List.mem_map.mp hp
      obtain ⟨h0, h1⟩ := hbound q hq
      constructor <;> nlinarith
  unfold ocrPdf
  by_cases hext : (env.extLower == ".pdf") = true
  · rw [if_pos hext]
    cases env.pdfParse with
    | error e => exact htess
    | ok parsedText =>
        by_cases hblank : (parsedText.getD []).any (fun c => !c.isWhitespace) = true
        · simp only [hblank, if_pos]
          refine ⟨List.chain'_singleton _, ?_⟩
          intro p hp
          simp only [List.mem_singleton] at hp
          subst hp
          norm_num
        · simp only [Bool.not_eq_true] at hblank
          simp only [hblank, Bool.false_eq_true, if_false]
          exact htess
  · simp only [Bool.not_eq_true] at hext
    rw [hext]
    exact htess

/-- The full-pipeline progress trace is monotone for monotone extraction
reports in [0, 100]. -/
theorem progress_chain_full (reports : List ℚ)
    (hchain : List.Chain' (· ≤ ·) reports)
    (hbound : ∀ p ∈ reports, 0 ≤ p ∧ p ≤ 100) :
    List.Chain' (· ≤ ·)
      ((5 : ℚ) :: 10 :: (reports.map (fun p => 10 + p * (3 / 10))) ++
        [40, 50, 60, 90, 100]) := by
  show List.Chain' (· ≤ ·)
    (((5 : ℚ) :: 10 :: reports.map (fun p => 10 + p * (3 / 10))) ++
      [40, 50, 60, 90, 100])
  refine List.Chain'.append ?_
    (by norm_num [List.chain'_cons, List.chain'_singleton]) ?_
  · refine List.chain'_cons.mpr ⟨by norm_num, ?_⟩
    refine List.chain'_cons'.mpr ⟨?_, ?_⟩
    · intro y hy
      cases reports with
      | nil => simp at hy
      | cons p ps =>
          simp only [List.map_cons, List.head?_cons, Option.mem_def,
            Option.some.injEq] at hy
          obtain ⟨h0, _⟩ := hbound p (by simp)
          rw [← hy]
          nlinarith
    · exact (List.chain'_map _).mpr (hchain.imp (fun a b hab => by nlinarith))
  · intro x hx y hy
    simp only [List.head?_cons, Option.mem_def, Option.some.injEq] at hy
    subst hy
    have hx40 : x ≤ 40 := by
      cases hrep : reports with
      | nil =>
          rw [hrep] at hx
          simp only [List.map_nil, List.getLast?_cons_cons, List.getLast?_singleton,
            Option.mem_def, Option.some.injEq] at hx
          rw [← hx]
          norm_num
      | cons p ps =>
          rw [hrep] at hx
          rw [List.getLast?_cons_cons] at hx
          have hxmem : x ∈ (10 : ℚ) :: (p :: ps).map (fun p => 10 + p * (3 / 10)) := by
            obtain ⟨hne, hxeq⟩ := List.mem_getLast?_eq_getLast hx
            rw [hxeq]
            exact List.getLast_mem hne
          rcases List.mem_cons.mp hxmem with rfl | hxmem
          · norm_num
          · obtain ⟨q, hq, rfl⟩ := List.mem_map.mp hxmem
            obtain ⟨-, h1⟩ := hbound q (hrep ▸ hq)
            nlinarith
    exact hx40

/-- C8: with monotone recognition progress in [0, 1], every progress value
sequence reported by a job is monotone non-decreasing, starts at 5, and on a
resolved attempt ends at 100. -/
theorem worker_progress_monotone (env : WorkerEnv)
    (hchain : List.Chain' (· ≤ ·) env.ocr.tesseractProgress)
    (hbound : ∀ p ∈ env.ocr.tesseractProgress, 0 ≤ p ∧ p ≤ 1) :
    List.Chain' (· ≤ ·) (processJob env).progressTrace ∧
    (processJob env).progressTrace.head? = some 5 ∧
    (isOkE (processJob env).outcome = true →
      (processJob env).progressTrace.getLast? = some 100) := by
  obtain ⟨hrchain, hrbound⟩ := ocrPdf_reports_monotone env.ocr hchain hbound
  unfold processJob
  cases hguard : checkIdempotency env.redisExists env.fileHash with
  | error e =>
      refine ⟨?_, rfl, ?_⟩
      · exact List.chain'_singleton _
      · intro h
        simp [isOkE] at h
  | ok b =>
      cases b with
      | true =>
          refine ⟨?_, rfl, fun _ => rfl⟩
          exact List.chain'_pair.mpr (by norm_num)
      | false =>
          have htrace : (processJobFull env).progressTrace =
              (5 : ℚ) :: 10 :: ((ocrPdf env.ocr).2.map (fun p => 10 + p * (3 / 10))) ++
                [40, 50, 60, 90, 100] := rfl
          refine ⟨?_, ?_, fun _ => ?_⟩
          · rw [htrace]
            exact progress_chain_full _ hrchain hrbound
          · rw [htrace]
            rfl
          · rw [htrace]
            show (((5 : ℚ) :: 10 ::
              ((ocrPdf env.ocr).2.map (fun p => 10 + p * (3 / 10)))) ++
                ([40, 50, 60, 90, 100] : List ℚ)).getLast? = some (100 : ℚ)
            exact List.mem_getLast?_append_of_mem_getLast?
              (by simp [List.getLast?_cons_cons, List.getLast?_singleton])

/-- An environment whose extractor runs the Tesseract fallback with three
progress events. -/
def ocrProgressEnv : WorkerEnv :=
  { sampleEnv with
      ocr := { extLower := ".png", pdfParse := .error "not a pdf",
               tesseractText := "Scanned contract text".toList,
               tesseractProgress := [0, 1 / 2, 1] } }

/-- C8 witness: the Tesseract environment with progress 0, 0.5, 1. -/
theorem worker_progress_monotone_witness :
    List.Chain' (· ≤ ·) ocrProgressEnv.ocr.tesseractProgress ∧
    (∀ p ∈ ocrProgressEnv.ocr.tesseractProgress, 0 ≤ p ∧ p ≤ 1) ∧
    (List.Chain' (· ≤ ·) (processJob ocrProgressEnv).progressTrace ∧
      (processJob ocrProgressEnv).progressTrace.head? = some 5 ∧
      (isOkE (processJob ocrProgressEnv).outcome = true →
        (processJob ocrProgressEnv).progressTrace.getLast? = some 100)) := by
  have hch : List.Chain' (· ≤ ·) ocrProgressEnv.ocr.tesseractProgress := by
    show List.Chain' (· ≤ ·) [(0 : ℚ), 1 / 2, 1]
    norm_num [List.chain'_cons, List.chain'_singleton]
  have hbd : ∀ p ∈ ocrProgressEnv.ocr.tesseractProgress, 0 ≤ p ∧ p ≤ 1 := by
    show ∀ p ∈ [(0 : ℚ), 1 / 2, 1], 0 ≤ p ∧ p ≤ 1
    simp only [List.mem_cons, List.not_mem_nil, or_false]
    rintro p (rfl | rfl | rfl) <;> norm_num
  exact ⟨hch, hbd, worker_progress_monotone ocrProgressEnv hch hbd⟩

/-! ### Guard availability (fail-open vs. propagated lookup failure) -/

/-- `sampleEnv` with a Redis connection whose lookups reject. -/
def downRedisEnv : WorkerEnv :=
  { sampleEnv with redisExists := fun _ => .error "ECONNREFUSED" }

/-- C9 counterexample: when the guard lookup itself fails, the job attempt
fails with that error and performs no processing at all — it does not treat
the fingerprint as unprocessed and proceed. -/
theorem guard_lookup_failure_blocks :
    (processJob downRedisEnv).outcome = .error "ECONNREFUSED" ∧
    (processJob downRedisEnv).ocrRan = false ∧
    (processJob downRedisEnv).embedRan = false ∧
    (processJob downRedisEnv).agentAttempts = 0 ∧
    (processJob downRedisEnv).newCheckpoints = [] ∧
    (processJob downRedisEnv).progressTrace = [5] :=
  ⟨rfl, rfl, rfl, rfl, rfl, rfl⟩

/-- C9 (amended): with the stubbed (unconfigured) guard the lookup resolves
"not processed" and the pipeline proceeds with full processing, but an error
thrown by a configured guard's lookup propagates and fails the job attempt. -/
theorem guard_fail_open_stub_spec (env : WorkerEnv) (e : String) :
    checkIdempotency mockRedisExists env.fileHash = .ok false ∧
    processJob { env with redisExists := mockRedisExists } =
      processJobFull { env with redisExists := mockRedisExists } ∧
    (processJob { env with redisExists := mockRedisExists }).ocrRan = true ∧
    isOkE (processJob { env with redisExists := mockRedisExists }).outcome = true ∧
    (processJob { env with redisExists := fun _ => .error e }).outcome = .error e ∧
    (processJob { env with redisExists := fun _ => .error e }).ocrRan = false := by
  have hfull : processJob { env with redisExists := mockRedisExists } =
      processJobFull { env with redisExists := mockRedisExists } :=
    processJob_full_of_miss _ 0 rfl (by omega)
  refine ⟨rfl, hfull, ?_, ?_, rfl, rfl⟩
  · rw [hfull]
    rfl
  · rw [hfull]
    rfl

/-! ### Dead-letter routing -/

/-- A dead-letter record: the payload added to `contract-analysis-dlq`. -/
structure DeadLetterEntry where
  originalJobId : String
  jobData : ContractJobData
  error : String
  failedAt : Nat
  attempts : Nat
deriving DecidableEq

/-- The attempt ceiling configured on the contract queue
(`defaultJobOptions.attempts: 3`). -/
def queueAttemptCeiling : Nat := 3

/-- What the `worker.on('failed')` handler sees of a failed job. -/
structure FailedJobView where
  id : String
  data : ContractJobData
  attemptsMade : Nat

/-- The `worker.on('failed')` handler: appends one dead-letter entry exactly
when the job exists and has made at least 3 attempts. -/
def onWorkerFailed (dlq : List DeadLetterEntry) (job : Option FailedJobView)
    (errMsg : String) (now : Nat) : List DeadLetterEntry :=
  match job with
  | none => dlq
  | some j =>
      if 3 ≤ j.attemptsMade then
        dlq ++ [⟨j.id, j.data, errMsg, now, j.attemptsMade⟩]
      else dlq

/-- A job failing on every attempt up to the queue ceiling: the handler
observes each failed attempt with its attempt count (1-based). -/
def exhaustFailingJob (id : String) (data : ContractJobData) (errs : Nat → String)
    (now : Nat) : List DeadLetterEntry :=
  (List.range queueAttemptCeiling).foldl
    (fun dlq k => onWorkerFailed dlq (some ⟨id, data, k + 1⟩) (errs k) (now + k)) []

/-- C6: the failed handler appends an entry exactly when the attempt count
has reached 3, and a job that exhausts the ceiling of 3 produces exactly one
entry whose `attempts` field equals the ceiling, carrying the original job
id, payload, last error, and failure time. -/
theorem deadLetter_on_exhaustion (dlq : List DeadLetterEntry)
    (j : FailedJobView) (e : String) (t : Nat) (id : String)
    (data : ContractJobData) (errs : Nat → String) (now : Nat) :
    (onWorkerFailed dlq (some j) e t).length =
      dlq.length + (if 3 ≤ j.attemptsMade then 1 else 0) ∧
    onWorkerFailed dlq none e t = dlq ∧
    exhaustFailingJob id data errs now =
      [{ originalJobId := id, jobData := data, error := errs 2, failedAt := now + 2,
         attempts := queueAttemptCeiling }] := by
  refine ⟨?_, rfl, rfl⟩
  unfold onWorkerFailed
  by_cases h : 3 ≤ j.attemptsMade
  · simp [h]
  · simp [h]

/-! ### Dead-letter resubmission (`retryFailedJob`) -/

/-- What the `contract-analysis-dlq` queue stores per job: the BullMQ job id
and the dead-letter payload (whose `jobData` is the original payload). -/
structure DlqJobRecord where
  id : String
  data : DeadLetterEntry
deriving DecidableEq

/-- The queues and the checkpoint table as visible to `retryFailedJob`. -/
structure QueuesState where
  contractJobs : List (String × ContractJobData)
  dlqJobs : List DlqJobRecord
  checkpointRows : List Checkpoint
deriving DecidableEq

/-- `analyzeContract`: adds an `analyze-contract` job with the given payload. -/
def analyzeContract (jobs : List (String × ContractJobData))
    (filePath contractId userId : String)
    (metadata : Option (List (String × String))) : List (String × ContractJobData) :=
  jobs ++ [("analyze-contract", ⟨filePath, contractId, userId, metadata⟩)]

/-- `retryFailedJob`: fetches the DLQ job, throws a not-found error for an
unknown id, otherwise re-enqueues the original payload via `analyzeContract`
and removes the DLQ job.  Checkpoint rows are neither read nor written. -/
def retryFailedJob (st : QueuesState) (dlqJobId : String) :
    Except String QueuesState :=
  match st.dlqJobs.find? (fun j => j.id == dlqJobId) with
  | none => .error ("DLQ job " ++ dlqJobId ++ " not found")
  | some dlqJob =>
      let originalData := dlqJob.data.jobData
      .ok { contractJobs := analyzeContract st.contractJobs originalData.filePath
              originalData.contractId originalData.userId originalData.metadata,
            dlqJobs := st.dlqJobs.eraseP (fun j => j.id == dlqJobId),
            checkpointRows := st.checkpointRows }

/-- C7: resubmitting an existing dead-letter entry enqueues one fresh job
with the original payload and deletes the entry, leaving checkpoints
untouched; an unknown id fails with a not-found error and enqueues nothing. -/
theorem retryFailedJob_spec (st : QueuesState) (dlqJobId : String) :
    (∀ r, st.dlqJobs.find? (fun j => j.id == dlqJobId) = some r →
      retryFailedJob st dlqJobId = .ok
        { contractJobs := st.contractJobs ++ [("analyze-contract", r.data.jobData)],
          dlqJobs := st.dlqJobs.eraseP (fun j => j.id == dlqJobId),
          checkpointRows := st.checkpointRows }) ∧
    (st.dlqJobs.find? (fun j => j.id == dlqJobId) = none →
      retryFailedJob st dlqJobId = .error ("DLQ job " ++ dlqJobId ++ " not found")) := by
  constructor
  · intro r hr
    unfold retryFailedJob
    rw [hr]
    rfl
  · intro hnone
    unfold retryFailedJob
    rw [hnone]

/-- A one-entry dead-letter queue used to instantiate the resubmission
theorem. -/
def sampleQueuesState : QueuesState :=
  { contractJobs := [],
    dlqJobs := [⟨"dlq-1",
      { originalJobId := "job-7", jobData := sampleJobData,
        error := "Agent loop failed after 3 attempts: timeout", failedAt := 90,
        attempts := 3 }⟩],
    checkpointRows := [] }

/-- C7 witness: resubmission of the one stored entry, and a lookup miss. -/
theorem retryFailedJob_spec_witness :
    sampleQueuesState.dlqJobs.find? (fun j => j.id == "dlq-1") =
      some ⟨"dlq-1",
        { originalJobId := "job-7", jobData := sampleJobData,
          error := "Agent loop failed after 3 attempts: timeout", failedAt := 90,
          attempts := 3 }⟩ ∧
    retryFailedJob sampleQueuesState "dlq-1" = .ok
      { contractJobs := sampleQueuesState.contractJobs ++
          [("analyze-contract", sampleJobData)],
        dlqJobs := sampleQueuesState.dlqJobs.eraseP (fun j => j.id == "dlq-1"),
        checkpointRows := sampleQueuesState.checkpointRows } ∧
    sampleQueuesState.dlqJobs.find? (fun j => j.id == "dlq-9") = none ∧
    retryFailedJob sampleQueuesState "dlq-9" =
      .error ("DLQ job " ++ "dlq-9" ++ " not found") :=
  ⟨rfl, (retryFailedJob_spec sampleQueuesState "dlq-1").1 _ rfl, rfl,
    (retryFailedJob_spec sampleQueuesState "dlq-9").2 rfl⟩

end ContractPipeline
